import Mathlib

/-!
Shallow embedding of `src/scripts/train_tiny_mnist.py` (the `main` function),
the training-loop controller of the nanoDiffusion repository.

Modelling conventions:
* scalar losses (Python floats) are embedded as exact rationals;
* the diffusion model, the optimizer and the torch-level operations on them
  (forward pass, backward/step, EMA update) are external collaborators and are
  abstracted as parameters in the `Ext` structure;
* a `KeyboardInterrupt` may be delivered at an explicit program point of the
  loop (`IPoint`); a run is interpreted relative to an optional delivery point;
* Python exception flow (`try`/`except KeyboardInterrupt`/`finally`, an
  exception raised inside `finally` superseding the pending one) is made
  explicit in `tryBody`, `finallyStep` and `runMain`;
* theorems about the loop carry positivity hypotheses on `log_rate` and
  `checkpoint_rate` where relevant: with a zero cadence Python would raise a
  `ZeroDivisionError` at `iteration % rate`, a path outside this embedding
  (natural-number modulo by zero does not raise).
-/

namespace TrainTinyMnist

/-- Configuration fields of the argparse namespace that `main` reads
(lines 24-140 of train_tiny_mnist.py). Fields that only parametrize the
external collaborators (learning rate, schedule bounds, device, resume
checkpoint paths, model-construction parameters) are absorbed into `Ext`. -/
structure Args where
  iterations : ℕ
  batch_size : ℕ
  log_rate : ℕ
  checkpoint_rate : ℕ
  log_to_wandb : Bool
  project_name : Option String
  run_name : String
  log_dir : String

/-- External collaborators of the loop: the diffusion model (type `M`), the
optimizer (type `O`), the cycled training loader (`trainBatch i` is the batch
returned by `next(train_loader)` at iteration `i`), the forward-loss contracts
in training and in eval mode, the combined `zero_grad`/`backward`/`step`/
`update_ema` state update, and the raw held-out test data (samples abstracted
as naturals). -/
structure Ext (M O : Type) where
  initModel : M
  initOptim : O
  trainBatch : ℕ → List ℕ
  trainForward : M → List ℕ → ℚ
  trainUpdate : M → O → List ℕ → M × O
  evalForward : M → List ℕ → ℚ
  testData : List ℕ

/-- Program points inside the `try` block at which a `KeyboardInterrupt`
may be delivered: during model/optimizer construction (lines 28-39), at the
top of the loop body of iteration `i` (line 71), before processing test batch
`b` of the evaluation at iteration `i` (line 97), before the model snapshot
write of the checkpoint at iteration `i` (line 131), and between the model
snapshot write and the optimizer snapshot write (between lines 131 and 132). -/
inductive IPoint where
  | duringInit : IPoint
  | beforeIter : ℕ → IPoint
  | duringEval : ℕ → ℕ → IPoint
  | beforeSaveModel : ℕ → IPoint
  | betweenSaves : ℕ → IPoint
deriving DecidableEq

/-- Iteration during which a program point occurs (0 for the init phase). -/
def IPoint.iterOf : IPoint → ℕ
  | .duringInit => 0
  | .beforeIter i => i
  | .duringEval i _ => i
  | .beforeSaveModel i => i
  | .betweenSaves i => i

/-- Exceptions that can escape the `for` loop: a delivered interrupt, or the
`ZeroDivisionError` of `test_loss /= len(test_loader)` (line 115). -/
inductive LoopExc where
  | kb : LoopExc
  | zeroDiv : LoopExc
deriving DecidableEq

/-- Exceptions that `main` can let escape from the `try` block. -/
inductive PyErr where
  | valueError : String → PyErr
  | zeroDivision : PyErr
deriving DecidableEq

/-- Exceptions that can escape `main` itself: an uncaught `try`-block
exception, or an `UnboundLocalError` raised by the `finally` block (line 140)
when `wandb_runner` was never assigned; the latter supersedes and carries as
context the pending exception, mirroring Python exception replacement
semantics in `finally`. -/
inductive PyExc where
  | simple : PyErr → PyExc
  | unboundLocal : Option PyErr → PyExc
deriving DecidableEq

/-- Observable state threaded through the run.  Besides the Python-level
mutable state (`model`, `optim`, `acc_train_loss`) it records the observable
events needed by the specification: completed iterations, evaluation events
as `(iteration, batches consumed, test_loss, averaged train loss)`, metric
records emitted to the logging backend, checkpoint artifact filenames in
write order, whether/how often the logging session was opened and closed,
interrupt notices printed, and which resources have been allocated. -/
structure LoopState (M O : Type) where
  model : M
  optim : O
  acc_train_loss : ℚ
  itersDone : ℕ
  evals : List (ℕ × ℕ × ℚ × ℚ)
  logs : List (ℕ × ℚ × ℚ)
  artifacts : List String
  wandbOpened : Bool
  openCount : ℕ
  finishCount : ℕ
  notices : ℕ
  modelAllocated : Bool
  optimAllocated : Bool
  dataAllocated : Bool
deriving DecidableEq

/-- Python renders `None` as the string "None" inside an f-string, which is
what line 128 does when `project_name` is absent. -/
def projectNameStr (a : Args) : String :=
  match a.project_name with
  | some s => s
  | none => "None"

/-- Model snapshot filename built at line 128. -/
def modelFilename (a : Args) (i : ℕ) : String :=
  a.log_dir ++ "/" ++ projectNameStr a ++ "-" ++ a.run_name ++ "-iteration-"
    ++ toString i ++ "-model.pth"

/-- Optimizer snapshot filename built at line 129. -/
def optimFilename (a : Args) (i : ℕ) : String :=
  a.log_dir ++ "/" ++ projectNameStr a ++ "-" ++ a.run_name ++ "-iteration-"
    ++ toString i ++ "-optim.pth"

/-- Number of batches of the held-out loader: `DataLoader(test_dataset,
batch_size, drop_last=True)` (line 67) yields the floor of size over
batch size, dropping the trailing partial batch. -/
def numTestBatches {M O : Type} (ext : Ext M O) (a : Args) : ℕ :=
  ext.testData.length / a.batch_size

/-- Batches of the held-out loader (line 67): consecutive full chunks of
`batch_size` samples, trailing partial chunk dropped. -/
def testBatches {M O : Type} (ext : Ext M O) (a : Args) : List (List ℕ) :=
  (List.range (numTestBatches ext a)).map
    (fun k => (ext.testData.drop (k * a.batch_size)).take a.batch_size)

/-- The `for x, y in test_loader` accumulation of lines 97-106: starting from
accumulator `acc` with `k` batches already consumed, fold the eval-mode loss
over the remaining batches, checking for a delivered interrupt before each
batch; returns the accumulated loss and the number of batches consumed. -/
def evalLoop (intr : Option IPoint) (i : ℕ) (f : List ℕ → ℚ) :
    ℚ → List (List ℕ) → ℕ → Except Unit (ℚ × ℕ)
  | acc, [], k => .ok (acc, k)
  | acc, b :: rest, k =>
    if intr = some (IPoint.duringEval i k) then .error ()
    else evalLoop intr i f (acc + f b) rest (k + 1)

/-- One iteration of the `for iteration in range(1, args.iterations + 1)` loop
(lines 71-132): train on one batch, accumulate the loss, update model and
optimizer; every `log_rate` iterations run the full evaluation pass, divide by
the number of test batches (raising `ZeroDivisionError` when there are none),
report and reset the accumulator; every `checkpoint_rate` iterations write the
model snapshot and then the optimizer snapshot.  An error result carries the
state at the moment the exception is raised. -/
def iterStep {M O : Type} (ext : Ext M O) (a : Args) (intr : Option IPoint)
    (i : ℕ) (st : LoopState M O) :
    Except (LoopExc × LoopState M O) (LoopState M O) :=
  if intr = some (IPoint.beforeIter i) then .error (LoopExc.kb, st)
  else
    let b := ext.trainBatch i
    let loss := ext.trainForward st.model b
    let mo := ext.trainUpdate st.model st.optim b
    let st1 : LoopState M O :=
      { st with model := mo.1, optim := mo.2,
                acc_train_loss := st.acc_train_loss + loss }
    let afterEval : Except (LoopExc × LoopState M O) (LoopState M O) :=
      if i % a.log_rate = 0 then
        match evalLoop intr i (ext.evalForward st1.model) 0 (testBatches ext a) 0 with
        | .error _ => .error (LoopExc.kb, st1)
        | .ok sc =>
          if numTestBatches ext a = 0 then .error (LoopExc.zeroDiv, st1)
          else
            let test_loss := sc.1 / (numTestBatches ext a : ℚ)
            let train_avg := st1.acc_train_loss / (a.log_rate : ℚ)
            .ok { st1 with
                    evals := st1.evals ++ [(i, sc.2, test_loss, train_avg)],
                    logs := if a.log_to_wandb then
                              st1.logs ++ [(i, test_loss, train_avg)]
                            else st1.logs,
                    acc_train_loss := 0 }
      else .ok st1
    match afterEval with
    | .error e => .error e
    | .ok st2 =>
      let afterCkpt : Except (LoopExc × LoopState M O) (LoopState M O) :=
        if i % a.checkpoint_rate = 0 then
          if intr = some (IPoint.beforeSaveModel i) then .error (LoopExc.kb, st2)
          else
            let st3 := { st2 with artifacts := st2.artifacts ++ [modelFilename a i] }
            if intr = some (IPoint.betweenSaves i) then .error (LoopExc.kb, st3)
            else .ok { st3 with artifacts := st3.artifacts ++ [optimFilename a i] }
        else .ok st2
      match afterCkpt with
      | .error e => .error e
      | .ok st4 => .ok { st4 with itersDone := st4.itersDone + 1 }

/-- Iterations `i, i+1, ..., i+fuel-1` of the loop, short-circuiting on the
first exception. -/
def runFrom {M O : Type} (ext : Ext M O) (a : Args) (intr : Option IPoint) :
    ℕ → ℕ → LoopState M O → Except (LoopExc × LoopState M O) (LoopState M O)
  | _, 0, st => .ok st
  | i, fuel + 1, st =>
    match iterStep ext a intr i st with
    | .error e => .error e
    | .ok st1 => runFrom ext a intr (i + 1) fuel st1

/-- State at entry of the `try` block: nothing allocated, no session. -/
def initState {M O : Type} (ext : Ext M O) : LoopState M O :=
  { model := ext.initModel, optim := ext.initOptim, acc_train_loss := 0,
    itersDone := 0, evals := [], logs := [], artifacts := [],
    wandbOpened := false, openCount := 0, finishCount := 0, notices := 0,
    modelAllocated := false, optimAllocated := false, dataAllocated := false }

/-- How the `try` block of `main` (lines 27-135) terminates. -/
inductive TryResult (M O : Type) where
  | finished : LoopState M O → TryResult M O
  | interrupted : LoopState M O → TryResult M O
  | raised : PyErr → LoopState M O → TryResult M O
deriving DecidableEq

/-- The `try` block of `main`: construct model and optimizer (lines 28-39;
an interrupt may land here, before `wandb_runner` is ever assigned), validate
the logging configuration and open the session (lines 41-51), build the data
loaders (lines 53-67), run the loop (lines 69-132), and on normal completion
close the session (lines 134-135). -/
def allocState {M O : Type} (ext : Ext M O) : LoopState M O :=
  { initState ext with modelAllocated := true, optimAllocated := true }

/-- State at the top of the loop (line 71): model and optimizer constructed,
session opened when logging was requested (lines 45-51), data loaders built
(lines 56-67). -/
def startState {M O : Type} (ext : Ext M O) (a : Args) : LoopState M O :=
  if a.log_to_wandb then
    { allocState ext with
        wandbOpened := true, openCount := 1, dataAllocated := true }
  else { allocState ext with dataAllocated := true }

def tryBody {M O : Type} (ext : Ext M O) (a : Args) (intr : Option IPoint) :
    TryResult M O :=
  if intr = some IPoint.duringInit then TryResult.interrupted (initState ext)
  else
    match (if a.log_to_wandb then
             match a.project_name with
             | none =>
               Except.error (PyErr.valueError
                 "args.log_to_wandb set to True but args.project_name is None")
             | some _ => Except.ok ()
           else Except.ok ()) with
    | .error e => TryResult.raised e (allocState ext)
    | .ok _ =>
      match runFrom ext a intr 1 a.iterations (startState ext a) with
      | .error (LoopExc.kb, st) => TryResult.interrupted st
      | .error (LoopExc.zeroDiv, st) => TryResult.raised PyErr.zeroDivision st
      | .ok st =>
        TryResult.finished
          (if a.log_to_wandb then { st with finishCount := st.finishCount + 1 }
           else st)

/-- Outcome of a whole run of `main`: the final observable state and the
exception escaping to the caller, if any. -/
structure RunResult (M O : Type) where
  st : LoopState M O
  outcome : Option PyExc
deriving DecidableEq

/-- The `finally` block (lines 138-140): when logging was requested it calls
`wandb_runner.finish()`; if `wandb_runner` was never assigned this itself
raises `UnboundLocalError`, which supersedes any pending exception (kept as
its context). -/
def finallyStep {M O : Type} (a : Args) (st : LoopState M O)
    (pending : Option PyErr) : RunResult M O :=
  if a.log_to_wandb then
    if st.wandbOpened then
      { st := { st with finishCount := st.finishCount + 1 },
        outcome := pending.map PyExc.simple }
    else
      { st := st, outcome := some (PyExc.unboundLocal pending) }
  else
    { st := st, outcome := pending.map PyExc.simple }

/-- The whole of `main` (lines 23-140): run the `try` block; `except
KeyboardInterrupt` (lines 136-137) consumes an interrupt and prints a one-line
notice; the `finally` block then always executes. -/
def runMain {M O : Type} (ext : Ext M O) (a : Args) (intr : Option IPoint) :
    RunResult M O :=
  match tryBody ext a intr with
  | TryResult.finished st => finallyStep a st none
  | TryResult.interrupted st =>
    finallyStep a { st with notices := st.notices + 1 } none
  | TryResult.raised e st => finallyStep a st (some e)

/-! ### Closed forms for the uninterrupted run -/

/-- Model and optimizer after `k` completed training updates. -/
def msAfter {M O : Type} (ext : Ext M O) : ℕ → M × O
  | 0 => (ext.initModel, ext.initOptim)
  | k + 1 =>
    ext.trainUpdate (msAfter ext k).1 (msAfter ext k).2 (ext.trainBatch (k + 1))

/-- Training loss value observed at iteration `i` (the value of
`loss.item()` at line 85). -/
def lossAt {M O : Type} (ext : Ext M O) (i : ℕ) : ℚ :=
  ext.trainForward (msAfter ext (i - 1)).1 (ext.trainBatch i)

/-- Value of `acc_train_loss` at the boundary after iteration `k`. -/
def accAfter {M O : Type} (ext : Ext M O) (a : Args) : ℕ → ℚ
  | 0 => 0
  | k + 1 =>
    if (k + 1) % a.log_rate = 0 then 0
    else accAfter ext a k + lossAt ext (k + 1)

/-- Mean held-out loss computed by the evaluation event of iteration `i`. -/
def testLossAt {M O : Type} (ext : Ext M O) (a : Args) (i : ℕ) : ℚ :=
  ((testBatches ext a).map (ext.evalForward (msAfter ext i).1)).sum /
    (numTestBatches ext a : ℚ)

/-- Averaged train loss reported by the evaluation event of iteration `i`. -/
def trainAvgAt {M O : Type} (ext : Ext M O) (a : Args) (i : ℕ) : ℚ :=
  (accAfter ext a (i - 1) + lossAt ext i) / (a.log_rate : ℚ)

/-- Evaluation events recorded during iterations `1..k`. -/
def evalsAfter {M O : Type} (ext : Ext M O) (a : Args) : ℕ → List (ℕ × ℕ × ℚ × ℚ)
  | 0 => []
  | k + 1 =>
    if (k + 1) % a.log_rate = 0 then
      evalsAfter ext a k ++
        [(k + 1, numTestBatches ext a, testLossAt ext a (k + 1), trainAvgAt ext a (k + 1))]
    else evalsAfter ext a k

/-- Metric records emitted to the logging backend during iterations `1..k`. -/
def logsAfter {M O : Type} (ext : Ext M O) (a : Args) : ℕ → List (ℕ × ℚ × ℚ)
  | 0 => []
  | k + 1 =>
    if (k + 1) % a.log_rate = 0 then
      if a.log_to_wandb then
        logsAfter ext a k ++ [(k + 1, testLossAt ext a (k + 1), trainAvgAt ext a (k + 1))]
      else logsAfter ext a k
    else logsAfter ext a k

/-- Checkpoint artifact filenames written during iterations `1..k`,
in write order. -/
def artifactsAfter (a : Args) : ℕ → List String
  | 0 => []
  | k + 1 =>
    if (k + 1) % a.checkpoint_rate = 0 then
      artifactsAfter a k ++ [modelFilename a (k + 1), optimFilename a (k + 1)]
    else artifactsAfter a k

/-- Closed form of the loop state after `k` uninterrupted iterations starting
from state `st`. -/
def stateAfterLoop {M O : Type} (ext : Ext M O) (a : Args) (st : LoopState M O)
    (k : ℕ) : LoopState M O :=
  { st with
      model := (msAfter ext k).1,
      optim := (msAfter ext k).2,
      acc_train_loss := accAfter ext a k,
      itersDone := st.itersDone + k,
      evals := st.evals ++ evalsAfter ext a k,
      logs := st.logs ++ logsAfter ext a k,
      artifacts := st.artifacts ++ artifactsAfter a k }

/-! ### Basic lemmas about the loop -/

theorem evalLoop_none {i : ℕ} (f : List ℕ → ℚ) :
    ∀ (bs : List (List ℕ)) (acc : ℚ) (k : ℕ),
      evalLoop none i f acc bs k = .ok (acc + (bs.map f).sum, k + bs.length) := by
  intro bs
  induction bs with
  | nil => intro acc k; simp [evalLoop]
  | cons b rest ih =>
    intro acc k
    simp only [evalLoop, reduceCtorEq, if_false, ih, List.map_cons, List.sum_cons,
      List.length_cons]
    congr 2
    · ring
    · omega

theorem runFrom_cons {M O : Type} (ext : Ext M O) (a : Args)
    (intr : Option IPoint) (i fuel : ℕ) (st : LoopState M O) :
    runFrom ext a intr i (fuel + 1) st =
      match iterStep ext a intr i st with
      | Except.error e => Except.error e
      | Except.ok st1 => runFrom ext a intr (i + 1) fuel st1 := rfl

theorem runFrom_add {M O : Type} (ext : Ext M O) (a : Args)
    (intr : Option IPoint) :
    ∀ (m n i : ℕ) (st : LoopState M O),
      runFrom ext a intr i (m + n) st =
        match runFrom ext a intr i m st with
        | Except.error e => Except.error e
        | Except.ok st1 => runFrom ext a intr (i + m) n st1 := by
  intro m
  induction m with
  | zero =>
    intro n i st
    simp [runFrom]
  | succ m ih =>
    intro n i st
    have hfl : m + 1 + n = (m + n) + 1 := by omega
    rw [hfl, runFrom_cons, runFrom_cons]
    cases h : iterStep ext a intr i st with
    | error e => rfl
    | ok st1 =>
      dsimp only
      rw [ih n (i + 1) st1]
      have hia : i + 1 + m = i + (m + 1) := by omega
      rw [hia]

theorem runFrom_one {M O : Type} (ext : Ext M O) (a : Args)
    (intr : Option IPoint) (i : ℕ) (st : LoopState M O) :
    runFrom ext a intr i 1 st = iterStep ext a intr i st := by
  rw [runFrom_cons]
  cases iterStep ext a intr i st <;> rfl

theorem testBatches_length {M O : Type} (ext : Ext M O) (a : Args) :
    (testBatches ext a).length = numTestBatches ext a := by
  simp [testBatches]

theorem iterStep_none_closed {M O : Type} (ext : Ext M O) (a : Args)
    (st : LoopState M O) (k : ℕ)
    (hE : (k + 1) % a.log_rate = 0 → 0 < numTestBatches ext a) :
    iterStep ext a none (k + 1) (stateAfterLoop ext a st k) =
      Except.ok (stateAfterLoop ext a st (k + 1)) := by
  unfold iterStep
  simp only [reduceCtorEq, if_false, evalLoop_none, testBatches_length]
  by_cases hlog : (k + 1) % a.log_rate = 0
  case pos =>
    have hnb : ¬ numTestBatches ext a = 0 := by
      have h1 := hE hlog
      omega
    by_cases hck : (k + 1) % a.checkpoint_rate = 0
    all_goals
      simp [hlog, hnb, hck, stateAfterLoop, msAfter, accAfter, evalsAfter, logsAfter,
        artifactsAfter, lossAt, testLossAt, trainAvgAt, LoopState.mk.injEq,
        List.append_assoc, Nat.add_assoc]
    all_goals (try (split <;> rfl))
  case neg =>
    by_cases hck : (k + 1) % a.checkpoint_rate = 0
    all_goals
      simp [hlog, hck, stateAfterLoop, msAfter, accAfter, evalsAfter, logsAfter,
        artifactsAfter, lossAt, LoopState.mk.injEq, List.append_assoc, Nat.add_assoc]

theorem runFrom_none_closed {M O : Type} (ext : Ext M O) (a : Args)
    (st : LoopState M O) (hm : st.model = ext.initModel)
    (ho : st.optim = ext.initOptim) (hacc : st.acc_train_loss = 0) :
    ∀ k : ℕ,
      (∀ i, 1 ≤ i → i ≤ k → i % a.log_rate = 0 → 0 < numTestBatches ext a) →
      runFrom ext a none 1 k st = Except.ok (stateAfterLoop ext a st k) := by
  intro k
  induction k with
  | zero =>
    intro _
    simp only [runFrom, stateAfterLoop, msAfter, accAfter, evalsAfter, logsAfter,
      artifactsAfter, List.append_nil, Nat.add_zero]
    rw [← hm, ← ho, ← hacc]
  | succ k ih =>
    intro hE
    have hrec := ih (fun i h1 h2 h3 => hE i h1 (by omega) h3)
    rw [runFrom_add ext a none k 1 1 st, hrec]
    dsimp only
    rw [runFrom_one]
    have h1k : 1 + k = k + 1 := by omega
    rw [h1k]
    exact iterStep_none_closed ext a st k (fun h => hE (k + 1) (by omega) (by omega) h)

theorem evalsAfter_iters {M O : Type} (ext : Ext M O) (a : Args) :
    ∀ k : ℕ,
      (evalsAfter ext a k).map (fun e => e.1) =
        (List.range (k / a.log_rate)).map (fun j => (j + 1) * a.log_rate) := by
  intro k
  induction k with
  | zero => simp [evalsAfter]
  | succ k ih =>
    by_cases h : (k + 1) % a.log_rate = 0
    · have hdvd : a.log_rate ∣ (k + 1) := Nat.dvd_of_mod_eq_zero h
      have hdiv : (k + 1) / a.log_rate = k / a.log_rate + 1 :=
        Nat.succ_div_of_dvd hdvd
      have hmul : (k / a.log_rate + 1) * a.log_rate = k + 1 := by
        rw [← hdiv]
        exact Nat.div_mul_cancel hdvd
      simp [evalsAfter, h, hdiv, List.range_succ, ih, hmul]
    · have hndvd : ¬ a.log_rate ∣ (k + 1) := by
        intro hd
        rcases hd with ⟨c, hc⟩
        apply h
        rw [hc]
        simp [Nat.mul_mod_right]
      simp [evalsAfter, h, Nat.succ_div_of_not_dvd hndvd, ih]

theorem not_dvd_of_mod_ne_zero {m n : ℕ} (h : n % m ≠ 0) : ¬ m ∣ n := by
  intro hd
  rcases hd with ⟨c, hc⟩
  apply h
  rw [hc]
  simp [Nat.mul_mod_right]

theorem artifactsAfter_closed (a : Args) :
    ∀ k : ℕ,
      artifactsAfter a k =
        (List.range (k / a.checkpoint_rate)).flatMap
          (fun j => [modelFilename a ((j + 1) * a.checkpoint_rate),
                     optimFilename a ((j + 1) * a.checkpoint_rate)]) := by
  intro k
  induction k with
  | zero => simp [artifactsAfter]
  | succ k ih =>
    by_cases h : (k + 1) % a.checkpoint_rate = 0
    · have hdvd : a.checkpoint_rate ∣ (k + 1) := Nat.dvd_of_mod_eq_zero h
      have hdiv : (k + 1) / a.checkpoint_rate = k / a.checkpoint_rate + 1 :=
        Nat.succ_div_of_dvd hdvd
      have hmul : (k / a.checkpoint_rate + 1) * a.checkpoint_rate = k + 1 := by
        rw [← hdiv]
        exact Nat.div_mul_cancel hdvd
      simp [artifactsAfter, h, hdiv, List.range_succ, ih, hmul]
    · simp [artifactsAfter, h, Nat.succ_div_of_not_dvd (not_dvd_of_mod_ne_zero h), ih]

theorem evalsAfter_mem {M O : Type} (ext : Ext M O) (a : Args) :
    ∀ (k : ℕ) (i nb : ℕ) (tl tr : ℚ),
      (i, nb, tl, tr) ∈ evalsAfter ext a k →
      1 ≤ i ∧ i ≤ k ∧ i % a.log_rate = 0 ∧ nb = numTestBatches ext a ∧
        tl = testLossAt ext a i ∧ tr = trainAvgAt ext a i := by
  intro k
  induction k with
  | zero => intro i nb tl tr h; simp [evalsAfter] at h
  | succ k ih =>
    intro i nb tl tr h
    by_cases hk : (k + 1) % a.log_rate = 0
    · simp only [evalsAfter, hk, if_true, List.mem_append, List.mem_singleton] at h
      cases h with
      | inl h1 =>
        have := ih i nb tl tr h1
        exact ⟨this.1, by omega, this.2.2⟩
      | inr h2 =>
        rw [Prod.mk.injEq, Prod.mk.injEq, Prod.mk.injEq] at h2
        obtain ⟨h2i, h2nb, h2tl, h2tr⟩ := h2
        subst h2i h2nb h2tl h2tr
        exact ⟨by omega, by omega, hk, rfl, rfl, rfl⟩
    · simp only [evalsAfter, hk, if_false] at h
      have := ih i nb tl tr h
      exact ⟨this.1, by omega, this.2.2⟩

/-- State carried by a loop computation result, whether it stopped with an
exception or completed. -/
def carriedState {M O : Type} :
    Except (LoopExc × LoopState M O) (LoopState M O) → LoopState M O
  | Except.ok s => s
  | Except.error (_, s) => s

/-- Fields never written by the loop body: the session bookkeeping, the
notice counter and the allocation flags. -/
def sameSessionFields {M O : Type} (s t : LoopState M O) : Prop :=
  s.wandbOpened = t.wandbOpened ∧ s.openCount = t.openCount ∧
    s.finishCount = t.finishCount ∧ s.notices = t.notices ∧
    s.modelAllocated = t.modelAllocated ∧ s.optimAllocated = t.optimAllocated ∧
    s.dataAllocated = t.dataAllocated

theorem iterStep_session_frame {M O : Type} (ext : Ext M O) (a : Args)
    (intr : Option IPoint) (i : ℕ) (st : LoopState M O) :
    sameSessionFields (carriedState (iterStep ext a intr i st)) st := by
  by_cases h1 : intr = some (IPoint.beforeIter i)
  · simp [iterStep, h1, carriedState, sameSessionFields]
  · by_cases h2 : i % a.log_rate = 0
    · cases hev : evalLoop intr i
        (ext.evalForward (ext.trainUpdate st.model st.optim (ext.trainBatch i)).1)
        0 (testBatches ext a) 0 with
      | error u =>
        simp [iterStep, h1, h2, hev, carriedState, sameSessionFields]
      | ok sc =>
        by_cases h4 : numTestBatches ext a = 0
        · simp [iterStep, h1, h2, hev, h4, carriedState, sameSessionFields]
        · by_cases h5 : i % a.checkpoint_rate = 0
          · by_cases h6 : intr = some (IPoint.beforeSaveModel i)
            · rw [h6] at hev
              simp [iterStep, h1, h2, hev, h4, h5, h6, carriedState, sameSessionFields]
            · by_cases h7 : intr = some (IPoint.betweenSaves i)
              · rw [h7] at hev
                simp [iterStep, h1, h2, hev, h4, h5, h6, h7, carriedState,
                  sameSessionFields]
              · simp [iterStep, h1, h2, hev, h4, h5, h6, h7, carriedState,
                  sameSessionFields]
          · simp [iterStep, h1, h2, hev, h4, h5, carriedState, sameSessionFields]
    · by_cases h5 : i % a.checkpoint_rate = 0
      · by_cases h6 : intr = some (IPoint.beforeSaveModel i)
        · simp [iterStep, h1, h2, h5, h6, carriedState, sameSessionFields]
        · by_cases h7 : intr = some (IPoint.betweenSaves i)
          · simp [iterStep, h1, h2, h5, h6, h7, carriedState, sameSessionFields]
          · simp [iterStep, h1, h2, h5, h6, h7, carriedState, sameSessionFields]
      · simp [iterStep, h1, h2, h5, carriedState, sameSessionFields]

theorem runFrom_session_frame {M O : Type} (ext : Ext M O) (a : Args)
    (intr : Option IPoint) :
    ∀ (fuel i : ℕ) (st : LoopState M O),
      sameSessionFields (carriedState (runFrom ext a intr i fuel st)) st := by
  intro fuel
  induction fuel with
  | zero => intro i st; simp [runFrom, carriedState, sameSessionFields]
  | succ n ih =>
    intro i st
    rw [runFrom_cons]
    cases h : iterStep ext a intr i st with
    | error e =>
      have hframe := iterStep_session_frame ext a intr i st
      rw [h] at hframe
      exact hframe
    | ok st1 =>
      have hframe := iterStep_session_frame ext a intr i st
      rw [h] at hframe
      have hrec := ih (i + 1) st1
      dsimp only
      dsimp only [carriedState] at hframe
      unfold sameSessionFields at hframe hrec ⊢
      obtain ⟨f1, f2, f3, f4, f5, f6, f7⟩ := hframe
      obtain ⟨g1, g2, g3, g4, g5, g6, g7⟩ := hrec
      exact ⟨by rw [g1, f1], by rw [g2, f2], by rw [g3, f3], by rw [g4, f4],
             by rw [g5, f5], by rw [g6, f6], by rw [g7, f7]⟩

theorem iterStep_artifacts_even {M O : Type} (ext : Ext M O) (a : Args)
    (intr : Option IPoint) (i : ℕ) (st : LoopState M O)
    (hb : ∀ j, intr ≠ some (IPoint.betweenSaves j))
    (h2 : 2 ∣ st.artifacts.length) :
    2 ∣ (carriedState (iterStep ext a intr i st)).artifacts.length := by
  by_cases h1 : intr = some (IPoint.beforeIter i)
  · simpa [iterStep, h1, carriedState] using h2
  · by_cases hl : i % a.log_rate = 0
    · cases hev : evalLoop intr i
        (ext.evalForward (ext.trainUpdate st.model st.optim (ext.trainBatch i)).1)
        0 (testBatches ext a) 0 with
      | error u =>
        simpa [iterStep, h1, hl, hev, carriedState] using h2
      | ok sc =>
        by_cases h4 : numTestBatches ext a = 0
        · simpa [iterStep, h1, hl, hev, h4, carriedState] using h2
        · by_cases h5 : i % a.checkpoint_rate = 0
          · by_cases h6 : intr = some (IPoint.beforeSaveModel i)
            · rw [h6] at hev
              simpa [iterStep, h1, hl, hev, h4, h5, h6, carriedState] using h2
            · have h7 : ¬ intr = some (IPoint.betweenSaves i) := hb i
              simp [iterStep, h1, hl, hev, h4, h5, h6, h7, carriedState]
              omega
          · simpa [iterStep, h1, hl, hev, h4, h5, carriedState] using h2
    · by_cases h5 : i % a.checkpoint_rate = 0
      · by_cases h6 : intr = some (IPoint.beforeSaveModel i)
        · simpa [iterStep, h1, hl, h5, h6, carriedState] using h2
        · have h7 : ¬ intr = some (IPoint.betweenSaves i) := hb i
          simp [iterStep, h1, hl, h5, h6, h7, carriedState]
          omega
      · simpa [iterStep, h1, hl, h5, carriedState] using h2

theorem runFrom_artifacts_even {M O : Type} (ext : Ext M O) (a : Args)
    (intr : Option IPoint) (hb : ∀ j, intr ≠ some (IPoint.betweenSaves j)) :
    ∀ (fuel i : ℕ) (st : LoopState M O), 2 ∣ st.artifacts.length →
      2 ∣ (carriedState (runFrom ext a intr i fuel st)).artifacts.length := by
  intro fuel
  induction fuel with
  | zero => intro i st h2; simpa [runFrom, carriedState] using h2
  | succ n ih =>
    intro i st h2
    rw [runFrom_cons]
    cases h : iterStep ext a intr i st with
    | error e =>
      have := iterStep_artifacts_even ext a intr i st hb h2
      rw [h] at this
      exact this
    | ok st1 =>
      have hstep := iterStep_artifacts_even ext a intr i st hb h2
      rw [h] at hstep
      dsimp only [carriedState] at hstep
      exact ih (i + 1) st1 hstep

/-! ### Interrupts at other iterations are invisible -/

theorem evalLoop_intr_ne {i : ℕ} {p : IPoint} (f : List ℕ → ℚ)
    (hp : ∀ b, p ≠ IPoint.duringEval i b) :
    ∀ (bs : List (List ℕ)) (acc : ℚ) (k : ℕ),
      evalLoop (some p) i f acc bs k = evalLoop none i f acc bs k := by
  intro bs
  induction bs with
  | nil => intro acc k; simp [evalLoop]
  | cons b rest ih =>
    intro acc k
    have hcur : ¬ (some p = some (IPoint.duringEval i k)) := by
      simp only [Option.some.injEq]
      exact hp k
    simp only [evalLoop, hcur, if_false, reduceCtorEq, ih]

theorem iterStep_intr_ne {M O : Type} (ext : Ext M O) (a : Args) {p : IPoint}
    {i : ℕ} (hp : p.iterOf ≠ i) (hp0 : p ≠ IPoint.duringInit)
    (st : LoopState M O) :
    iterStep ext a (some p) i st = iterStep ext a none i st := by
  have hbi : ¬ (some p = some (IPoint.beforeIter i)) := by
    simp only [Option.some.injEq]
    intro h
    subst h
    simp [IPoint.iterOf] at hp
  have hbs : ¬ (some p = some (IPoint.beforeSaveModel i)) := by
    simp only [Option.some.injEq]
    intro h
    subst h
    simp [IPoint.iterOf] at hp
  have hbw : ¬ (some p = some (IPoint.betweenSaves i)) := by
    simp only [Option.some.injEq]
    intro h
    subst h
    simp [IPoint.iterOf] at hp
  have hde : ∀ b, p ≠ IPoint.duringEval i b := by
    intro b h
    subst h
    simp [IPoint.iterOf] at hp
  simp only [iterStep, hbi, if_false, reduceCtorEq, hbs, hbw,
    evalLoop_intr_ne _ hde]

theorem runFrom_intr_outside {M O : Type} (ext : Ext M O) (a : Args)
    {p : IPoint} (hp0 : p ≠ IPoint.duringInit) :
    ∀ (fuel i : ℕ) (st : LoopState M O),
      (∀ j, i ≤ j → j < i + fuel → p.iterOf ≠ j) →
      runFrom ext a (some p) i fuel st = runFrom ext a none i fuel st := by
  intro fuel
  induction fuel with
  | zero => intro i st _; simp [runFrom]
  | succ n ih =>
    intro i st hout
    rw [runFrom_cons, runFrom_cons]
    rw [iterStep_intr_ne ext a (hout i (by omega) (by omega)) hp0]
    cases iterStep ext a none i st with
    | error e => rfl
    | ok st1 =>
      exact ih (i + 1) st1 (fun j hj1 hj2 => hout j (by omega) (by omega))

/-! ### Concrete instantiation used by witnesses -/

/-- Trivial concrete collaborators: model and optimizer carry no data, every
training loss is 1 and every eval loss is 2, four held-out samples. -/
def extU : Ext Unit Unit :=
  { initModel := (), initOptim := (), trainBatch := fun _ => [0],
    trainForward := fun _ _ => 1, trainUpdate := fun _ _ _ => ((), ()),
    evalForward := fun _ _ => 2, testData := [0, 1, 2, 3] }

/-- Concrete valid configuration: 4 iterations, eval every 2, checkpoint
every 3, logging enabled with a project name. -/
def argsA : Args :=
  { iterations := 4, batch_size := 2, log_rate := 2, checkpoint_rate := 3,
    log_to_wandb := true, project_name := some "p", run_name := "r",
    log_dir := "d" }

example : (runMain extU argsA none).st.itersDone = 4 := by decide
example : (runMain extU argsA none).outcome = none := by decide
example : (runMain extU argsA none).st.evals.map (fun e => (e.1, e.2.1)) =
    [(2, 2), (4, 2)] := by decide
example : (runMain extU argsA none).st.artifacts =
    ["d/p-r-iteration-3-model.pth", "d/p-r-iteration-3-optim.pth"] := by decide
example : (runMain extU argsA none).st.openCount = 1 := by decide
example : (runMain extU argsA none).st.finishCount = 2 := by decide
example :
    (runMain extU { argsA with project_name := none } none).outcome =
      some (PyExc.unboundLocal (some (PyErr.valueError
        "args.log_to_wandb set to True but args.project_name is None"))) := by
  decide
example :
    (runMain extU { argsA with project_name := none } none).st.modelAllocated
      = true := by decide
example :
    (runMain extU argsA (some (IPoint.betweenSaves 3))).st.artifacts =
      ["d/p-r-iteration-3-model.pth"] := by decide
example :
    (runMain extU argsA (some (IPoint.betweenSaves 3))).outcome = none := by
  decide
example :
    (runMain extU argsA (some (IPoint.betweenSaves 3))).st.notices = 1 := by
  decide
example :
    (runMain extU { argsA with batch_size := 5 } none).outcome =
      some (PyExc.simple PyErr.zeroDivision) := by decide
example :
    (runMain extU { argsA with batch_size := 5 } none).st.itersDone = 1 := by
  decide
example :
    (runMain extU argsA (some IPoint.duringInit)).outcome =
      some (PyExc.unboundLocal none) := by decide
example :
    (runMain extU argsA (some (IPoint.duringEval 2 1))).st.itersDone = 1 := by
  decide
example :
    (runMain extU argsA (some (IPoint.duringEval 2 1))).outcome = none := by
  decide

/-! ### Claim theorems -/

/-- Claim C1, counterexample.  The claim states that with logging requested
and no project identifier the failure is surfaced before any model or
optimizer resources are allocated.  In fact, at a concrete such
configuration the run does fail during initialization, but the state at
failure shows the model and the optimizer were already constructed (lines
28-33 precede the check at lines 41-43). -/
theorem C1_counterexample :
    (runMain extU { argsA with project_name := none } none).outcome ≠ none ∧
      (runMain extU { argsA with project_name := none } none).st.modelAllocated
        = true ∧
      (runMain extU { argsA with project_name := none } none).st.optimAllocated
        = true := by
  refine ⟨by decide, by decide, by decide⟩

/-- Claim C1, amended.  If logging is requested (`log_to_wandb` true) and the
project identifier is absent, the run fails during initialization with a
configuration error that is raised after model and optimizer construction but
before the data loaders are built and before any iteration executes; no
logging session is ever opened, no evaluation event or checkpoint artifact is
produced, and the configuration error propagates to the caller as the context
of the unbound-local cleanup failure. -/
theorem C1_failfast_after_alloc {M O : Type} (ext : Ext M O) (a : Args)
    (intr : Option IPoint) (hw : a.log_to_wandb = true)
    (hp : a.project_name = none) (hintr : intr ≠ some IPoint.duringInit) :
    (runMain ext a intr).outcome =
        some (PyExc.unboundLocal (some (PyErr.valueError
          "args.log_to_wandb set to True but args.project_name is None"))) ∧
      (runMain ext a intr).st.modelAllocated = true ∧
      (runMain ext a intr).st.optimAllocated = true ∧
      (runMain ext a intr).st.dataAllocated = false ∧
      (runMain ext a intr).st.itersDone = 0 ∧
      (runMain ext a intr).st.evals = [] ∧
      (runMain ext a intr).st.artifacts = [] ∧
      (runMain ext a intr).st.wandbOpened = false ∧
      (runMain ext a intr).st.openCount = 0 := by
  simp [runMain, tryBody, finallyStep, initState, allocState, hw, hp, hintr]

/-- Claim C1, witness for the amended theorem at a concrete input. -/
theorem C1_witness :
    ({ argsA with project_name := none } : Args).log_to_wandb = true ∧
      ({ argsA with project_name := none } : Args).project_name = none ∧
      (some (IPoint.beforeIter 1) ≠ some IPoint.duringInit) ∧
      (runMain extU { argsA with project_name := none }
          (some (IPoint.beforeIter 1))).outcome =
        some (PyExc.unboundLocal (some (PyErr.valueError
          "args.log_to_wandb set to True but args.project_name is None"))) :=
  ⟨by decide, by decide, by decide,
    (C1_failfast_after_alloc extU { argsA with project_name := none }
      (some (IPoint.beforeIter 1)) (by decide) (by decide) (by decide)).1⟩

/-- Claim C9 (confirmed).  If `log_to_wandb` is true and control leaves the
`try` block before `wandb_runner` is assigned — because the missing-project
`ValueError` is raised, or because a `KeyboardInterrupt` arrives during
model/optimizer construction — then the `finally` cleanup itself fails with
an unbound-local error on the never-assigned session variable: the run's
outcome is an `UnboundLocalError` and `finish` is never invoked, so cleanup
is not total on those paths. -/
theorem C9_cleanup_not_total {M O : Type} (ext : Ext M O) (a : Args)
    (intr : Option IPoint) (hw : a.log_to_wandb = true)
    (hcase : a.project_name = none ∨ intr = some IPoint.duringInit) :
    (∃ ctx, (runMain ext a intr).outcome = some (PyExc.unboundLocal ctx)) ∧
      (runMain ext a intr).st.finishCount = 0 ∧
      (runMain ext a intr).st.wandbOpened = false := by
  by_cases hI : intr = some IPoint.duringInit
  · simp [runMain, tryBody, finallyStep, initState, hw, hI]
  · have hp : a.project_name = none := hcase.resolve_right hI
    simp [runMain, tryBody, finallyStep, initState, allocState, hw, hp, hI]

/-- Claim C9, witness at a concrete input (missing project identifier). -/
theorem C9_witness :
    ({ argsA with project_name := none } : Args).log_to_wandb = true ∧
      (({ argsA with project_name := none } : Args).project_name = none ∨
        (none : Option IPoint) = some IPoint.duringInit) ∧
      ((∃ ctx,
          (runMain extU { argsA with project_name := none } none).outcome =
            some (PyExc.unboundLocal ctx)) ∧
        (runMain extU { argsA with project_name := none } none).st.finishCount
          = 0 ∧
        (runMain extU { argsA with project_name := none } none).st.wandbOpened
          = false) :=
  ⟨by decide, Or.inl (by decide),
    C9_cleanup_not_total extU { argsA with project_name := none } none
      (by decide) (Or.inl (by decide))⟩

/-- Claim C2 (confirmed).  On every way the run can end — normal completion,
interrupt at any program point, or any other control-flow exit — the session
is opened at most once; whenever a session was opened, `finish` is invoked at
least once before `main` returns; and on the normal-completion path with
logging enabled (outcome `none` with no interrupt notice) `finish` is invoked
exactly twice: once at line 135 and once more unconditionally in the
`finally` cleanup. -/
theorem C2_session_discipline {M O : Type} (ext : Ext M O) (a : Args)
    (intr : Option IPoint) (hL : 0 < a.log_rate) (hC : 0 < a.checkpoint_rate) :
    (runMain ext a intr).st.openCount ≤ 1 ∧
      ((runMain ext a intr).st.wandbOpened = true →
        1 ≤ (runMain ext a intr).st.finishCount) ∧
      (a.log_to_wandb = true → (runMain ext a intr).outcome = none →
        (runMain ext a intr).st.notices = 0 →
        (runMain ext a intr).st.finishCount = 2) := by
  by_cases hI : intr = some IPoint.duringInit
  · by_cases hw : a.log_to_wandb = true <;>
      simp [runMain, tryBody, finallyStep, initState, hI, hw]
  · have hframe :=
      runFrom_session_frame ext a intr a.iterations 1 (startState ext a)
    by_cases hw : a.log_to_wandb = true
    · cases hp : a.project_name with
      | none =>
        simp [runMain, tryBody, finallyStep, initState, allocState, hI, hw, hp]
      | some s =>
        cases hrun : runFrom ext a intr 1 a.iterations (startState ext a) with
        | error e =>
          rw [hrun] at hframe
          obtain ⟨exc, est⟩ := e
          dsimp only [carriedState] at hframe
          unfold sameSessionFields at hframe
          obtain ⟨f1, f2, f3, f4, -, -, -⟩ := hframe
          simp [startState, allocState, initState, hw] at f1 f2 f3 f4
          cases exc with
          | kb =>
            simp [runMain, tryBody, finallyStep, hI, hw, hp, hrun, f1, f2, f3, f4]
          | zeroDiv =>
            simp [runMain, tryBody, finallyStep, hI, hw, hp, hrun, f1, f2, f3, f4]
        | ok st =>
          rw [hrun] at hframe
          dsimp only [carriedState] at hframe
          unfold sameSessionFields at hframe
          obtain ⟨f1, f2, f3, f4, -, -, -⟩ := hframe
          simp [startState, allocState, initState, hw] at f1 f2 f3 f4
          simp [runMain, tryBody, finallyStep, hI, hw, hp, hrun, f1, f2, f3, f4]
    · cases hrun : runFrom ext a intr 1 a.iterations (startState ext a) with
      | error e =>
        rw [hrun] at hframe
        obtain ⟨exc, est⟩ := e
        dsimp only [carriedState] at hframe
        unfold sameSessionFields at hframe
        obtain ⟨f1, f2, f3, f4, -, -, -⟩ := hframe
        simp [startState, allocState, initState, hw] at f1 f2 f3 f4
        cases exc with
        | kb =>
          simp [runMain, tryBody, finallyStep, hI, hw, hrun, f1, f2, f3, f4]
        | zeroDiv =>
          simp [runMain, tryBody, finallyStep, hI, hw, hrun, f1, f2, f3, f4]
      | ok st =>
        rw [hrun] at hframe
        dsimp only [carriedState] at hframe
        unfold sameSessionFields at hframe
        obtain ⟨f1, f2, f3, f4, -, -, -⟩ := hframe
        simp [startState, allocState, initState, hw] at f1 f2 f3 f4
        simp [runMain, tryBody, finallyStep, hI, hw, hrun, f1, f2, f3, f4]

/-- Claim C2, witness at a concrete valid configuration. -/
theorem C2_witness :
    0 < argsA.log_rate ∧ 0 < argsA.checkpoint_rate ∧
      ((runMain extU argsA none).st.openCount ≤ 1 ∧
        ((runMain extU argsA none).st.wandbOpened = true →
          1 ≤ (runMain extU argsA none).st.finishCount) ∧
        (argsA.log_to_wandb = true → (runMain extU argsA none).outcome = none →
          (runMain extU argsA none).st.notices = 0 →
          (runMain extU argsA none).st.finishCount = 2)) :=
  ⟨by decide, by decide,
    C2_session_discipline extU argsA none (by decide) (by decide)⟩

/-- State carried by a `try`-block result. -/
def tryState {M O : Type} : TryResult M O → LoopState M O
  | TryResult.finished st => st
  | TryResult.interrupted st => st
  | TryResult.raised _ st => st

theorem finallyStep_artifacts {M O : Type} (a : Args) (st : LoopState M O)
    (pending : Option PyErr) :
    (finallyStep a st pending).st.artifacts = st.artifacts := by
  unfold finallyStep
  split_ifs <;> rfl

theorem runMain_artifacts {M O : Type} (ext : Ext M O) (a : Args)
    (intr : Option IPoint) :
    (runMain ext a intr).st.artifacts =
      (tryState (tryBody ext a intr)).artifacts := by
  unfold runMain
  cases tryBody ext a intr <;> simp [finallyStep_artifacts, tryState]

theorem startState_artifacts {M O : Type} (ext : Ext M O) (a : Args) :
    (startState ext a).artifacts = [] := by
  unfold startState allocState initState
  split <;> rfl

/-- Claim C8, counterexample.  The claim asserts that at every reachable
point — including under an interrupt delivered at any iteration — the number
of checkpoint artifacts is a multiple of two.  Delivering the interrupt
between the model-snapshot write (line 131) and the optimizer-snapshot write
(line 132) of the checkpoint at iteration 3 leaves exactly one artifact. -/
theorem C8_counterexample :
    ¬ 2 ∣ (runMain extU argsA
        (some (IPoint.betweenSaves 3))).st.artifacts.length := by
  decide

/-- Claim C8, amended.  At every reachable point during and after a run the
number of checkpoint artifacts written is a multiple of two — model and
optimizer snapshots are paired — provided the interrupt is not delivered
between the model-snapshot write and the optimizer-snapshot write of a
checkpoint event; an interrupt delivered between those two paired writes
leaves a single unpaired model snapshot. -/
theorem C8_artifacts_paired {M O : Type} (ext : Ext M O) (a : Args)
    (intr : Option IPoint)
    (hb : ∀ j, intr ≠ some (IPoint.betweenSaves j)) :
    2 ∣ (runMain ext a intr).st.artifacts.length := by
  rw [runMain_artifacts]
  by_cases hI : intr = some IPoint.duringInit
  · simp [tryBody, hI, tryState, initState]
  · have hstart : 2 ∣ (startState ext a).artifacts.length := by
      rw [startState_artifacts]
      simp
    have hpar := runFrom_artifacts_even ext a intr hb a.iterations 1
      (startState ext a) hstart
    by_cases hw : a.log_to_wandb = true
    · cases hp : a.project_name with
      | none => simp [tryBody, hI, hw, hp, tryState, allocState, initState]
      | some s =>
        cases hrun : runFrom ext a intr 1 a.iterations (startState ext a) with
        | error e =>
          rw [hrun] at hpar
          obtain ⟨exc, est⟩ := e
          dsimp only [carriedState] at hpar
          cases exc <;> simpa [tryBody, hI, hw, hp, hrun, tryState] using hpar
        | ok st =>
          rw [hrun] at hpar
          dsimp only [carriedState] at hpar
          simpa [tryBody, hI, hw, hp, hrun, tryState] using hpar
    · cases hrun : runFrom ext a intr 1 a.iterations (startState ext a) with
      | error e =>
        rw [hrun] at hpar
        obtain ⟨exc, est⟩ := e
        dsimp only [carriedState] at hpar
        cases exc <;> simpa [tryBody, hI, hw, hrun, tryState] using hpar
      | ok st =>
        rw [hrun] at hpar
        dsimp only [carriedState] at hpar
        simpa [tryBody, hI, hw, hrun, tryState] using hpar

/-- Claim C8, witness for the amended theorem: an uninterrupted run. -/
theorem C8_witness :
    (∀ j, (none : Option IPoint) ≠ some (IPoint.betweenSaves j)) ∧
      2 ∣ (runMain extU argsA none).st.artifacts.length :=
  ⟨fun _ h => Option.noConfusion h,
    C8_artifacts_paired extU argsA none (fun _ h => Option.noConfusion h)⟩

theorem startState_fields {M O : Type} (ext : Ext M O) (a : Args) :
    (startState ext a).model = ext.initModel ∧
      (startState ext a).optim = ext.initOptim ∧
      (startState ext a).acc_train_loss = 0 ∧
      (startState ext a).itersDone = 0 ∧
      (startState ext a).evals = [] ∧
      (startState ext a).logs = [] ∧
      (startState ext a).artifacts = [] ∧
      (startState ext a).notices = 0 ∧
      (startState ext a).wandbOpened = a.log_to_wandb ∧
      (startState ext a).finishCount = 0 := by
  unfold startState allocState initState
  split <;> simp_all

/-- Characterization of the whole uninterrupted run under a valid
configuration: it completes normally and its observable event lists are the
closed forms. -/
theorem runMain_none_valid {M O : Type} (ext : Ext M O) (a : Args)
    (hvalid : a.log_to_wandb = true → a.project_name ≠ none)
    (hEval : ∀ i, 1 ≤ i → i ≤ a.iterations → i % a.log_rate = 0 →
      0 < numTestBatches ext a) :
    (runMain ext a none).outcome = none ∧
      (runMain ext a none).st.evals = evalsAfter ext a a.iterations ∧
      (runMain ext a none).st.artifacts = artifactsAfter a a.iterations ∧
      (runMain ext a none).st.itersDone = a.iterations ∧
      (runMain ext a none).st.notices = 0 := by
  obtain ⟨hm, ho, hacc, hid, hevs, hlogs, harts, hnot, hwo, hfin⟩ :=
    startState_fields ext a
  have hrun : runFrom ext a none 1 a.iterations (startState ext a) =
      Except.ok (stateAfterLoop ext a (startState ext a) a.iterations) :=
    runFrom_none_closed ext a (startState ext a) hm ho hacc a.iterations hEval
  by_cases hw : a.log_to_wandb = true
  · obtain ⟨s, hp⟩ : ∃ s, a.project_name = some s := by
      cases hps : a.project_name with
      | none => exact absurd hps (hvalid hw)
      | some s => exact ⟨s, rfl⟩
    rw [hw] at hwo
    simp [runMain, tryBody, finallyStep, hw, hp, hrun, stateAfterLoop, hwo,
      hid, hevs, harts, hnot]
  · simp [runMain, tryBody, finallyStep, hw, hrun, stateAfterLoop, hid, hevs,
      harts, hnot]

theorem artifactsAfter_length (a : Args) :
    ∀ k : ℕ, (artifactsAfter a k).length = 2 * (k / a.checkpoint_rate) := by
  intro k
  induction k with
  | zero => simp [artifactsAfter]
  | succ k ih =>
    by_cases h : (k + 1) % a.checkpoint_rate = 0
    · have hdvd : a.checkpoint_rate ∣ (k + 1) := Nat.dvd_of_mod_eq_zero h
      simp [artifactsAfter, h, ih, Nat.succ_div_of_dvd hdvd]
      omega
    · simp [artifactsAfter, h, ih,
        Nat.succ_div_of_not_dvd (not_dvd_of_mod_ne_zero h)]

/-- Claim C4 (confirmed).  For iteration budget N and evaluation cadence L
with N ≥ L, a run that completes without interruption executes the evaluation
path exactly ⌊N / L⌋ times, at exactly the iterations divisible by L, and
each evaluation event consumes exactly the full list of held-out batches. -/
theorem C4_eval_cadence {M O : Type} (ext : Ext M O) (a : Args)
    (hL : 0 < a.log_rate) (hNL : a.log_rate ≤ a.iterations)
    (hTB : 0 < numTestBatches ext a)
    (hvalid : a.log_to_wandb = true → a.project_name ≠ none) :
    (runMain ext a none).outcome = none ∧
      (runMain ext a none).st.evals.map (fun e => e.1) =
        (List.range (a.iterations / a.log_rate)).map
          (fun j => (j + 1) * a.log_rate) ∧
      (runMain ext a none).st.evals.length = a.iterations / a.log_rate ∧
      (∀ e ∈ (runMain ext a none).st.evals, e.2.1 = numTestBatches ext a) := by
  obtain ⟨ho, hev, -, -, -⟩ :=
    runMain_none_valid ext a hvalid (fun _ _ _ _ => hTB)
  refine ⟨ho, ?_, ?_, ?_⟩
  · rw [hev, evalsAfter_iters]
  · rw [hev]
    have hlen := congrArg List.length (evalsAfter_iters ext a a.iterations)
    simpa using hlen
  · intro e he
    rw [hev] at he
    have hmem := evalsAfter_mem ext a a.iterations e.1 e.2.1 e.2.2.1 e.2.2.2
      (by simpa using he)
    exact hmem.2.2.2.1

/-- Claim C4, witness at a concrete configuration (N = 4, L = 2, two held-out
batches). -/
theorem C4_witness :
    0 < argsA.log_rate ∧ argsA.log_rate ≤ argsA.iterations ∧
      0 < numTestBatches extU argsA ∧
      (runMain extU argsA none).st.evals.map (fun e => e.1) =
        (List.range (argsA.iterations / argsA.log_rate)).map
          (fun j => (j + 1) * argsA.log_rate) :=
  ⟨by decide, by decide, by decide,
    (C4_eval_cadence extU argsA (by decide) (by decide) (by decide)
      (fun _ h => Option.noConfusion h)).2.1⟩

/-- Claim C5 (confirmed).  For iteration budget N and checkpoint cadence C
with N ≥ C, a run that completes without interruption performs exactly
⌊N / C⌋ checkpoint events, at exactly the iterations divisible by C, each
writing exactly two artifacts — one model snapshot and one optimizer
snapshot — with the deterministic names built at lines 128-129. -/
theorem C5_checkpoint_cadence {M O : Type} (ext : Ext M O) (a : Args)
    (hC : 0 < a.checkpoint_rate) (hNC : a.checkpoint_rate ≤ a.iterations)
    (hEval : ∀ i, 1 ≤ i → i ≤ a.iterations → i % a.log_rate = 0 →
      0 < numTestBatches ext a)
    (hvalid : a.log_to_wandb = true → a.project_name ≠ none) :
    (runMain ext a none).outcome = none ∧
      (runMain ext a none).st.artifacts =
        (List.range (a.iterations / a.checkpoint_rate)).flatMap
          (fun j => [modelFilename a ((j + 1) * a.checkpoint_rate),
                     optimFilename a ((j + 1) * a.checkpoint_rate)]) ∧
      (runMain ext a none).st.artifacts.length =
        2 * (a.iterations / a.checkpoint_rate) := by
  obtain ⟨ho, -, hart, -, -⟩ := runMain_none_valid ext a hvalid hEval
  refine ⟨ho, ?_, ?_⟩
  · rw [hart, artifactsAfter_closed]
  · rw [hart, artifactsAfter_length]

/-- Claim C5, witness at a concrete configuration (N = 4, C = 3: one
checkpoint event with two named artifacts). -/
theorem C5_witness :
    0 < argsA.checkpoint_rate ∧ argsA.checkpoint_rate ≤ argsA.iterations ∧
      (runMain extU argsA none).st.artifacts.length =
        2 * (argsA.iterations / argsA.checkpoint_rate) :=
  ⟨by decide, by decide,
    (C5_checkpoint_cadence extU argsA (by decide) (by decide)
      (fun _ _ _ _ => by decide) (fun _ h => Option.noConfusion h)).2.2⟩

theorem iterStep_none_zeroDiv {M O : Type} (ext : Ext M O) (a : Args) (i : ℕ)
    (st : LoopState M O) (hlog : i % a.log_rate = 0)
    (hnb : numTestBatches ext a = 0) :
    iterStep ext a none i st = Except.error (LoopExc.zeroDiv,
      { st with
          model := (ext.trainUpdate st.model st.optim (ext.trainBatch i)).1,
          optim := (ext.trainUpdate st.model st.optim (ext.trainBatch i)).2,
          acc_train_loss :=
            st.acc_train_loss + ext.trainForward st.model (ext.trainBatch i) }) := by
  simp [iterStep, hlog, hnb, evalLoop_none]

/-- Claim C10 (confirmed).  Evaluation divides the accumulated test loss by
the number of test batches without a guard: whenever the held-out set has
fewer samples than `batch_size`, the test loader (with `drop_last`) yields
zero batches, and the first evaluation event — iteration `log_rate` —
terminates the run with a `ZeroDivisionError`; no evaluation is ever
recorded and only `log_rate - 1` iterations complete. -/
theorem C10_eval_zero_division {M O : Type} (ext : Ext M O) (a : Args)
    (hL : 0 < a.log_rate) (hNL : a.log_rate ≤ a.iterations)
    (hsmall : ext.testData.length < a.batch_size)
    (hvalid : a.log_to_wandb = true → a.project_name ≠ none) :
    numTestBatches ext a = 0 ∧
      (runMain ext a none).outcome = some (PyExc.simple PyErr.zeroDivision) ∧
      (runMain ext a none).st.evals = [] ∧
      (runMain ext a none).st.itersDone = a.log_rate - 1 := by
  have hnb : numTestBatches ext a = 0 := Nat.div_eq_of_lt hsmall
  obtain ⟨hm, ho, hacc, hid, hevs, hlogs, harts, hnot, hwo, hfin⟩ :=
    startState_fields ext a
  have hEpre : ∀ i, 1 ≤ i → i ≤ a.log_rate - 1 → i % a.log_rate = 0 →
      0 < numTestBatches ext a := by
    intro i h1 h2 h3
    have hmod : i % a.log_rate = i := Nat.mod_eq_of_lt (by omega)
    omega
  have hpre := runFrom_none_closed ext a (startState ext a) hm ho hacc
    (a.log_rate - 1) hEpre
  have hstep := iterStep_none_zeroDiv ext a a.log_rate
    (stateAfterLoop ext a (startState ext a) (a.log_rate - 1))
    (Nat.mod_self _) hnb
  have hsplit := runFrom_add ext a none (a.log_rate - 1)
    (a.iterations - (a.log_rate - 1)) 1 (startState ext a)
  have hfl : (a.log_rate - 1) + (a.iterations - (a.log_rate - 1)) =
      a.iterations := by omega
  rw [hfl, hpre] at hsplit
  dsimp only at hsplit
  have h1L : 1 + (a.log_rate - 1) = a.log_rate := by omega
  have h2L : a.iterations - (a.log_rate - 1) =
      (a.iterations - a.log_rate) + 1 := by omega
  rw [h1L, h2L, runFrom_cons, hstep] at hsplit
  have hevnil : evalsAfter ext a (a.log_rate - 1) = [] := by
    have hmap : (evalsAfter ext a (a.log_rate - 1)).map (fun e => e.1) = [] := by
      rw [evalsAfter_iters]
      have hd0 : (a.log_rate - 1) / a.log_rate = 0 :=
        Nat.div_eq_of_lt (by omega)
      simp [hd0]
    exact List.map_eq_nil_iff.mp hmap
  refine ⟨hnb, ?_⟩
  by_cases hw : a.log_to_wandb = true
  · obtain ⟨s, hp⟩ : ∃ s, a.project_name = some s := by
      cases hps : a.project_name with
      | none => exact absurd hps (hvalid hw)
      | some s => exact ⟨s, rfl⟩
    rw [hw] at hwo
    simp [runMain, tryBody, finallyStep, hw, hp, hsplit, stateAfterLoop, hwo,
      hid, hevs, hevnil]
  · simp [runMain, tryBody, finallyStep, hw, hsplit, stateAfterLoop, hid,
      hevs, hevnil]

/-- Claim C10, witness: four held-out samples with batch size five. -/
theorem C10_witness :
    0 < argsA.log_rate ∧ argsA.log_rate ≤ argsA.iterations ∧
      extU.testData.length < ({ argsA with batch_size := 5 } : Args).batch_size ∧
      (runMain extU { argsA with batch_size := 5 } none).outcome =
        some (PyExc.simple PyErr.zeroDivision) :=
  ⟨by decide, by decide, by decide,
    (C10_eval_zero_division extU { argsA with batch_size := 5 } (by decide)
      (by decide) (by decide) (fun _ h => Option.noConfusion h)).2.1⟩

/-- Claim C6 (confirmed).  The running-loss accumulator `acc_train_loss` is
zero before iteration 1 and immediately after each evaluation report; each
iteration adds that iteration's training-loss value to it; and the averaged
train loss reported by an evaluation event at iteration i equals the value
accumulated through iteration i divided by `log_rate`. -/
theorem C6_loss_accumulator {M O : Type} (ext : Ext M O) (a : Args)
    (hL : 0 < a.log_rate)
    (hEval : ∀ i, 1 ≤ i → i ≤ a.iterations → i % a.log_rate = 0 →
      0 < numTestBatches ext a) :
    (startState ext a).acc_train_loss = 0 ∧
      (∀ k s, k ≤ a.iterations → k % a.log_rate = 0 →
        runFrom ext a none 1 k (startState ext a) = Except.ok s →
        s.acc_train_loss = 0) ∧
      (∀ k s s1, k + 1 ≤ a.iterations → (k + 1) % a.log_rate ≠ 0 →
        runFrom ext a none 1 k (startState ext a) = Except.ok s →
        runFrom ext a none 1 (k + 1) (startState ext a) = Except.ok s1 →
        s1.acc_train_loss =
          s.acc_train_loss + ext.trainForward s.model (ext.trainBatch (k + 1))) ∧
      (∀ sN i nb tl tr,
        runFrom ext a none 1 a.iterations (startState ext a) = Except.ok sN →
        (i, nb, tl, tr) ∈ sN.evals →
        ∀ s, runFrom ext a none 1 (i - 1) (startState ext a) = Except.ok s →
          tr = (s.acc_train_loss +
                  ext.trainForward s.model (ext.trainBatch i)) /
                (a.log_rate : ℚ)) := by
  obtain ⟨hm, ho, hacc, hid, hevs, hlogs, harts, hnot, hwo, hfin⟩ :=
    startState_fields ext a
  refine ⟨hacc, ?_, ?_, ?_⟩
  · intro k s hk hkmod hrun
    have hclosed := runFrom_none_closed ext a (startState ext a) hm ho hacc k
      (fun i h1 h2 h3 => hEval i h1 (by omega) h3)
    rw [hclosed] at hrun
    injection hrun with hs
    subst hs
    show accAfter ext a k = 0
    cases k with
    | zero => rfl
    | succ k => simp [accAfter, hkmod]
  · intro k s s1 hk hkmod hrun hrun1
    have hclosed := runFrom_none_closed ext a (startState ext a) hm ho hacc k
      (fun i h1 h2 h3 => hEval i h1 (by omega) h3)
    have hclosed1 := runFrom_none_closed ext a (startState ext a) hm ho hacc
      (k + 1) (fun i h1 h2 h3 => hEval i h1 (by omega) h3)
    rw [hclosed] at hrun
    injection hrun with hs
    subst hs
    rw [hclosed1] at hrun1
    injection hrun1 with hs1
    subst hs1
    show accAfter ext a (k + 1) =
      accAfter ext a k +
        ext.trainForward (msAfter ext k).1 (ext.trainBatch (k + 1))
    simp [accAfter, hkmod, lossAt]
  · intro sN i nb tl tr hrunN hmem s hruni
    have hclosedN := runFrom_none_closed ext a (startState ext a) hm ho hacc
      a.iterations hEval
    rw [hclosedN] at hrunN
    injection hrunN with hsN
    subst hsN
    have hmem2 : (i, nb, tl, tr) ∈ evalsAfter ext a a.iterations := by
      have hev :
          (stateAfterLoop ext a (startState ext a) a.iterations).evals =
            evalsAfter ext a a.iterations := by
        show (startState ext a).evals ++ _ = _
        rw [hevs]
        simp
      rwa [hev] at hmem
    have hfacts := evalsAfter_mem ext a a.iterations i nb tl tr hmem2
    have hclosedi := runFrom_none_closed ext a (startState ext a) hm ho hacc
      (i - 1) (fun j h1 h2 h3 => hEval j h1 (by omega) h3)
    rw [hclosedi] at hruni
    injection hruni with hsi
    subst hsi
    show tr = (accAfter ext a (i - 1) +
        ext.trainForward (msAfter ext (i - 1)).1 (ext.trainBatch i)) /
      (a.log_rate : ℚ)
    rw [hfacts.2.2.2.2.2]
    rfl

/-- Claim C6, witness at a concrete valid configuration. -/
theorem C6_witness :
    0 < argsA.log_rate ∧
      (∀ i, 1 ≤ i → i ≤ argsA.iterations → i % argsA.log_rate = 0 →
        0 < numTestBatches extU argsA) ∧
      (startState extU argsA).acc_train_loss = 0 :=
  ⟨by decide, fun _ _ _ _ => by decide,
    (C6_loss_accumulator extU argsA (by decide)
      (fun _ _ _ _ => by decide)).1⟩

/-- Claim C7 (confirmed).  The evaluation step is a pure function of the
model and the held-out batches: the evaluation pass with no interrupt
processes every held-out batch exactly once and returns the plain sum of
per-batch losses together with the batch count; the held-out loader consists
of uniformly shaped batches of exactly `batch_size` samples (trailing
partial batch dropped); a completed iteration changes model and optimizer
only through the training update, so the evaluation and checkpoint phases
mutate neither; and every recorded evaluation event reports the full batch
count and the sum of per-batch eval losses of the current model divided by
the number of batches (not by the sample count). -/
theorem C7_evaluator_pure {M O : Type} (ext : Ext M O) (a : Args)
    (hEval : ∀ i, 1 ≤ i → i ≤ a.iterations → i % a.log_rate = 0 →
      0 < numTestBatches ext a) :
    (∀ (f : List ℕ → ℚ) (i : ℕ) (bs : List (List ℕ)),
      evalLoop none i f 0 bs 0 = Except.ok ((bs.map f).sum, bs.length)) ∧
      ((testBatches ext a).length = numTestBatches ext a ∧
        ∀ b ∈ testBatches ext a, b.length = a.batch_size) ∧
      (∀ k s s1, k + 1 ≤ a.iterations →
        runFrom ext a none 1 k (startState ext a) = Except.ok s →
        runFrom ext a none 1 (k + 1) (startState ext a) = Except.ok s1 →
        (s1.model, s1.optim) =
          ext.trainUpdate s.model s.optim (ext.trainBatch (k + 1))) ∧
      (∀ sN, runFrom ext a none 1 a.iterations (startState ext a) =
          Except.ok sN →
        ∀ i nb tl tr, (i, nb, tl, tr) ∈ sN.evals →
          nb = (testBatches ext a).length ∧
          ∀ s, runFrom ext a none 1 i (startState ext a) = Except.ok s →
            tl = ((testBatches ext a).map (ext.evalForward s.model)).sum /
              (nb : ℚ)) := by
  obtain ⟨hm, ho, hacc, hid, hevs, hlogs, harts, hnot, hwo, hfin⟩ :=
    startState_fields ext a
  refine ⟨?_, ⟨testBatches_length ext a, ?_⟩, ?_, ?_⟩
  · intro f i bs
    have h := @evalLoop_none i f bs 0 0
    simpa using h
  · intro b hb
    simp only [testBatches, List.mem_map, List.mem_range] at hb
    obtain ⟨k, hk, rfl⟩ := hb
    have h1 : (k + 1) * a.batch_size ≤
        (numTestBatches ext a) * a.batch_size :=
      Nat.mul_le_mul_right _ (by omega)
    have h2 : (numTestBatches ext a) * a.batch_size ≤ ext.testData.length :=
      Nat.div_mul_le_self _ _
    rw [Nat.succ_mul] at h1
    simp only [List.length_take, List.length_drop]
    omega
  · intro k s s1 hk hrun hrun1
    have hclosed := runFrom_none_closed ext a (startState ext a) hm ho hacc k
      (fun i h1 h2 h3 => hEval i h1 (by omega) h3)
    have hclosed1 := runFrom_none_closed ext a (startState ext a) hm ho hacc
      (k + 1) (fun i h1 h2 h3 => hEval i h1 (by omega) h3)
    rw [hclosed] at hrun
    injection hrun with hs
    subst hs
    rw [hclosed1] at hrun1
    injection hrun1 with hs1
    subst hs1
    rfl
  · intro sN hrunN i nb tl tr hmem
    have hclosedN := runFrom_none_closed ext a (startState ext a) hm ho hacc
      a.iterations hEval
    rw [hclosedN] at hrunN
    injection hrunN with hsN
    subst hsN
    have hmem2 : (i, nb, tl, tr) ∈ evalsAfter ext a a.iterations := by
      have hev :
          (stateAfterLoop ext a (startState ext a) a.iterations).evals =
            evalsAfter ext a a.iterations := by
        show (startState ext a).evals ++ _ = _
        rw [hevs]
        simp
      rwa [hev] at hmem
    have hfacts := evalsAfter_mem ext a a.iterations i nb tl tr hmem2
    refine ⟨by rw [hfacts.2.2.2.1, testBatches_length], ?_⟩
    intro s hruni
    have hclosedi := runFrom_none_closed ext a (startState ext a) hm ho hacc i
      (fun j h1 h2 h3 => hEval j h1 (by omega) h3)
    rw [hclosedi] at hruni
    injection hruni with hsi
    subst hsi
    rw [hfacts.2.2.2.2.1, hfacts.2.2.2.1]
    rfl

/-- Claim C7, witness at a concrete configuration. -/
theorem C7_witness :
    (∀ i, 1 ≤ i → i ≤ argsA.iterations → i % argsA.log_rate = 0 →
      0 < numTestBatches extU argsA) ∧
      ((testBatches extU argsA).length = numTestBatches extU argsA ∧
        ∀ b ∈ testBatches extU argsA, b.length = argsA.batch_size) :=
  ⟨fun _ _ _ _ => by decide,
    (C7_evaluator_pure extU argsA (fun _ _ _ _ => by decide)).2.1⟩

/-- The loop-phase program points that an uninterrupted valid run actually
passes through: a point of iteration `i` is reached when `i` lies in the
budget, its phase is active at iteration `i` (eval only every `log_rate`
iterations, checkpoint only every `checkpoint_rate`), the interrupted batch
index exists, and the evaluation of iteration `i` itself does not die with a
`ZeroDivisionError` first. -/
def ReachableLoopPoint {M O : Type} (ext : Ext M O) (a : Args) : IPoint → Prop
  | IPoint.duringInit => False
  | IPoint.beforeIter i => 1 ≤ i ∧ i ≤ a.iterations
  | IPoint.duringEval i b =>
      1 ≤ i ∧ i ≤ a.iterations ∧ i % a.log_rate = 0 ∧ b < numTestBatches ext a
  | IPoint.beforeSaveModel i =>
      1 ≤ i ∧ i ≤ a.iterations ∧ i % a.checkpoint_rate = 0 ∧
        (i % a.log_rate = 0 → 0 < numTestBatches ext a)
  | IPoint.betweenSaves i =>
      1 ≤ i ∧ i ≤ a.iterations ∧ i % a.checkpoint_rate = 0 ∧
        (i % a.log_rate = 0 → 0 < numTestBatches ext a)

theorem evalLoop_interrupt {i b : ℕ} (f : List ℕ → ℚ) :
    ∀ (bs : List (List ℕ)) (acc : ℚ) (k : ℕ), k ≤ b → b < k + bs.length →
      evalLoop (some (IPoint.duringEval i b)) i f acc bs k = Except.error () := by
  intro bs
  induction bs with
  | nil =>
    intro acc k hk1 hk2
    simp at hk2
    omega
  | cons hd rest ih =>
    intro acc k hk1 hk2
    by_cases hbk : b = k
    · simp [evalLoop, hbk]
    · have hne : ¬ (some (IPoint.duringEval i b) =
          some (IPoint.duringEval i k)) := by
        simp
        omega
      simp only [evalLoop, hne, if_false]
      refine ih (acc + f hd) (k + 1) (by omega) ?_
      simp only [List.length_cons] at hk2
      omega

theorem iterStep_error_itersDone {M O : Type} (ext : Ext M O) (a : Args)
    (intr : Option IPoint) (i : ℕ) (st est : LoopState M O) (exc : LoopExc)
    (h : iterStep ext a intr i st = Except.error (exc, est)) :
    est.itersDone = st.itersDone := by
  by_cases h1 : intr = some (IPoint.beforeIter i)
  · simp [iterStep, h1] at h
    rw [← h.2]
  · by_cases hl : i % a.log_rate = 0
    · cases hev : evalLoop intr i
        (ext.evalForward (ext.trainUpdate st.model st.optim (ext.trainBatch i)).1)
        0 (testBatches ext a) 0 with
      | error u =>
        simp [iterStep, h1, hl, hev] at h
        rw [← h.2]
      | ok sc =>
        by_cases h4 : numTestBatches ext a = 0
        · simp [iterStep, h1, hl, hev, h4] at h
          rw [← h.2]
        · by_cases h5 : i % a.checkpoint_rate = 0
          · by_cases h6 : intr = some (IPoint.beforeSaveModel i)
            · rw [h6] at hev
              simp [iterStep, h1, hl, hev, h4, h5, h6] at h
              rw [← h.2]
            · by_cases h7 : intr = some (IPoint.betweenSaves i)
              · rw [h7] at hev
                simp [iterStep, h1, hl, hev, h4, h5, h6, h7] at h
                rw [← h.2]
              · simp [iterStep, h1, hl, hev, h4, h5, h6, h7] at h
          · simp [iterStep, h1, hl, hev, h4, h5] at h
    · by_cases h5 : i % a.checkpoint_rate = 0
      · by_cases h6 : intr = some (IPoint.beforeSaveModel i)
        · simp [iterStep, h1, hl, h5, h6] at h
          rw [← h.2]
        · by_cases h7 : intr = some (IPoint.betweenSaves i)
          · simp [iterStep, h1, hl, h5, h6, h7] at h
            rw [← h.2]
          · simp [iterStep, h1, hl, h5, h6, h7] at h
      · simp [iterStep, h1, hl, h5] at h

theorem iterStep_interrupt_reached {M O : Type} (ext : Ext M O) (a : Args)
    (p : IPoint) (st : LoopState M O)
    (hreach : ReachableLoopPoint ext a p) :
    ∃ est, iterStep ext a (some p) p.iterOf st =
      Except.error (LoopExc.kb, est) := by
  cases p with
  | duringInit => exact absurd hreach (by simp [ReachableLoopPoint])
  | beforeIter i =>
    refine ⟨st, ?_⟩
    simp [iterStep, IPoint.iterOf]
  | duringEval i b =>
    obtain ⟨h1, h2, h3, h4⟩ := hreach
    have hev := @evalLoop_interrupt i b
      (ext.evalForward (ext.trainUpdate st.model st.optim (ext.trainBatch i)).1)
      (testBatches ext a) 0 0 (by omega)
      (by rw [Nat.zero_add, testBatches_length]; exact h4)
    simp only [iterStep, IPoint.iterOf, Option.some.injEq, reduceCtorEq,
      if_false, h3, if_true, hev]
    exact ⟨_, rfl⟩
  | beforeSaveModel i =>
    obtain ⟨h1, h2, h3, h4⟩ := hreach
    have hde : ∀ c, IPoint.beforeSaveModel i ≠ IPoint.duringEval i c := by
      intro c h
      cases h
    by_cases hlog : i % a.log_rate = 0
    · have hnb0 : ¬ numTestBatches ext a = 0 := by
        have := h4 hlog
        omega
      simp only [iterStep, IPoint.iterOf, Option.some.injEq, reduceCtorEq,
        if_false, hlog, if_true, evalLoop_intr_ne _ hde, evalLoop_none, hnb0,
        h3, if_true]
      exact ⟨_, rfl⟩
    · simp only [iterStep, IPoint.iterOf, Option.some.injEq, reduceCtorEq,
        if_false, hlog, h3, if_true]
      exact ⟨_, rfl⟩
  | betweenSaves i =>
    obtain ⟨h1, h2, h3, h4⟩ := hreach
    have hde : ∀ c, IPoint.betweenSaves i ≠ IPoint.duringEval i c := by
      intro c h
      cases h
    by_cases hlog : i % a.log_rate = 0
    · have hnb0 : ¬ numTestBatches ext a = 0 := by
        have := h4 hlog
        omega
      simp only [iterStep, IPoint.iterOf, Option.some.injEq, reduceCtorEq,
        if_false, hlog, if_true, evalLoop_intr_ne _ hde, evalLoop_none, hnb0,
        h3, if_true]
      exact ⟨_, rfl⟩
    · simp only [iterStep, IPoint.iterOf, Option.some.injEq, reduceCtorEq,
        if_false, hlog, h3, if_true]
      exact ⟨_, rfl⟩

/-- Claim C3 (confirmed).  If a `KeyboardInterrupt` is delivered at any
reachable program point of the loop — during running, evaluating, or
checkpointing — the run prints exactly one interrupt notice, completes no
iteration beyond the one the interrupt fell in, proceeds to the cleanup
phase (closing the logging session exactly once when one was opened), and
the interrupt never escapes to the caller of `main`. -/
theorem C3_interrupt_consumed {M O : Type} (ext : Ext M O) (a : Args)
    (p : IPoint) (hvalid : a.log_to_wandb = true → a.project_name ≠ none)
    (hreach : ReachableLoopPoint ext a p)
    (hprev : ∀ j, 1 ≤ j → j < p.iterOf → j % a.log_rate = 0 →
      0 < numTestBatches ext a) :
    (runMain ext a (some p)).outcome = none ∧
      (runMain ext a (some p)).st.notices = 1 ∧
      (runMain ext a (some p)).st.itersDone = p.iterOf - 1 ∧
      ((runMain ext a (some p)).st.wandbOpened = true →
        (runMain ext a (some p)).st.finishCount = 1) := by
  obtain ⟨hm, ho, hacc, hid, hevs, hlogs, harts, hnot, hwo, hfin⟩ :=
    startState_fields ext a
  have hp0 : p ≠ IPoint.duringInit := by
    intro h
    subst h
    exact hreach
  have hi1 : 1 ≤ p.iterOf := by
    cases p <;> simp_all [ReachableLoopPoint, IPoint.iterOf]
  have hiN : p.iterOf ≤ a.iterations := by
    cases p <;> simp_all [ReachableLoopPoint, IPoint.iterOf]
  have hpre1 := runFrom_intr_outside ext a hp0 (p.iterOf - 1) 1
    (startState ext a) (fun j hj1 hj2 => by omega)
  have hpre2 := runFrom_none_closed ext a (startState ext a) hm ho hacc
    (p.iterOf - 1) (fun j hj1 hj2 hj3 => hprev j hj1 (by omega) hj3)
  obtain ⟨est, hstep⟩ := iterStep_interrupt_reached ext a p
    (stateAfterLoop ext a (startState ext a) (p.iterOf - 1)) hreach
  have hsplit := runFrom_add ext a (some p) (p.iterOf - 1)
    (a.iterations - (p.iterOf - 1)) 1 (startState ext a)
  have hfl : (p.iterOf - 1) + (a.iterations - (p.iterOf - 1)) =
      a.iterations := by omega
  rw [hfl, hpre1, hpre2] at hsplit
  dsimp only at hsplit
  have h1L : 1 + (p.iterOf - 1) = p.iterOf := by omega
  have h2L : a.iterations - (p.iterOf - 1) =
      (a.iterations - p.iterOf) + 1 := by omega
  rw [h1L, h2L, runFrom_cons, hstep] at hsplit
  dsimp only at hsplit
  have hiter : est.itersDone = p.iterOf - 1 := by
    have hpres := iterStep_error_itersDone ext a (some p) p.iterOf _ est
      LoopExc.kb hstep
    rw [hpres]
    show (startState ext a).itersDone + (p.iterOf - 1) = p.iterOf - 1
    rw [hid]
    omega
  have hframe := runFrom_session_frame ext a (some p) a.iterations 1
    (startState ext a)
  rw [hsplit] at hframe
  dsimp only [carriedState] at hframe
  unfold sameSessionFields at hframe
  obtain ⟨f1, f2, f3, f4, -, -, -⟩ := hframe
  by_cases hw : a.log_to_wandb = true
  · obtain ⟨s, hp⟩ : ∃ s, a.project_name = some s := by
      cases hps : a.project_name with
      | none => exact absurd hps (hvalid hw)
      | some s => exact ⟨s, rfl⟩
    rw [hw] at hwo
    simp [runMain, tryBody, finallyStep, hw, hp, hp0, hsplit, f1, f2, f3, f4,
      hwo, hnot, hfin, hiter]
  · simp [runMain, tryBody, finallyStep, hw, hp0, hsplit, f1, f2, f3, f4, hwo,
      hnot, hfin, hiter]

/-- Claim C3, witness: interrupt at the top of iteration 2 of the concrete
configuration. -/
theorem C3_witness :
    ReachableLoopPoint extU argsA (IPoint.beforeIter 2) ∧
      (runMain extU argsA (some (IPoint.beforeIter 2))).outcome = none ∧
      (runMain extU argsA (some (IPoint.beforeIter 2))).st.notices = 1 :=
  ⟨⟨by decide, by decide⟩,
    (C3_interrupt_consumed extU argsA (IPoint.beforeIter 2)
      (fun _ h => Option.noConfusion h) ⟨by decide, by decide⟩
      (fun j h1 h2 h3 => by decide)).1,
    (C3_interrupt_consumed extU argsA (IPoint.beforeIter 2)
      (fun _ h => Option.noConfusion h) ⟨by decide, by decide⟩
      (fun j h1 h2 h3 => by decide)).2.1⟩

end TrainTinyMnist
